import Mathlib

/-
  Verification development for the wi-api billing core.

  Shallow embedding conventions:
  * Currency values stored in the database are fixed-point with 2 decimal
    digits; we represent them as integer *cents* (ℤ).  Raw caller-supplied
    amounts (arbitrary-precision decimals) are represented as ℚ.
  * `Decimal.quantize(Decimal("0.01"))` with the default context rounding
    (ROUND_HALF_EVEN) is modelled by `roundHalfEven` on the exact rational
    value; applied to a value that is already a whole number of cents it is
    the identity, which we fold in when the embedding works in cents.
  * Timestamps are ℕ (seconds); calendar dates are modelled per component:
    epoch-day integers (weekly arithmetic, epoch chosen on a Monday so that
    Python `date.weekday()` is `d % 7`) or year/month/day triples
    (month-end arithmetic).
-/

namespace WiApi

/-! ## Money rounding (`_quantize_money`, sales_service.py lines 45-46) -/

/-- Round a rational to the nearest integer, ties to the even integer.
This is `Decimal.quantize` to 0 digits under the default
`ROUND_HALF_EVEN` context rounding. -/
def roundHalfEven (q : ℚ) : ℤ :=
  if Int.fract q < 1/2 then ⌊q⌋
  else if 1/2 < Int.fract q then ⌊q⌋ + 1
  else if ⌊q⌋ % 2 = 0 then ⌊q⌋ else ⌊q⌋ + 1

/-- `_quantize_money(v) = v.quantize(Decimal("0.01"))`: round to 2 decimal
digits under the decimal context default rounding (half-even). -/
def quantizeMoney (v : ℚ) : ℚ :=
  (roundHalfEven (100 * v) : ℚ) / 100

/-! ## Amortization engine (`create_sale`, sales_service.py lines 197-218).
`prom_principal` is already quantized, i.e. a whole number of cents `P`. -/

/-- `per = _quantize_money(prom_principal / installments_count)` in cents. -/
def perInstallment (P : ℤ) (N : ℕ) : ℤ :=
  roundHalfEven ((P : ℚ) / (N : ℚ))

/-- `diff = _quantize_money(prom_principal - per * installments_count)`;
on whole cents the quantize is the identity. -/
def installmentDiff (P : ℤ) (N : ℕ) : ℤ :=
  P - perInstallment P N * N

/-- Amount of installment `n` (1-based): `amount = per`, and when
`n == installments_count and diff != 0` the code replaces it by
`_quantize_money(per + diff)` (identity on cents). -/
def installmentAmount (P : ℤ) (N : ℕ) (n : ℕ) : ℤ :=
  if n = N ∧ installmentDiff P N ≠ 0
  then perInstallment P N + installmentDiff P N
  else perInstallment P N

/-- The list of the `N` generated installment amounts, in order
(`for n in range(1, installments_count + 1)`). -/
def installmentPlan (P : ℤ) (N : ℕ) : List ℤ :=
  (List.range N).map (fun k => installmentAmount P N (k + 1))

theorem roundHalfEven_dist (q : ℚ) : |(roundHalfEven q : ℚ) - q| ≤ 1/2 := by
  have h0 : 0 ≤ Int.fract q := Int.fract_nonneg q
  have h1 : Int.fract q < 1 := Int.fract_lt_one q
  have efl : (⌊q⌋ : ℚ) - q = -(Int.fract q) := by unfold Int.fract; ring
  have efl1 : ((⌊q⌋ + 1 : ℤ) : ℚ) - q = 1 - Int.fract q := by
    push_cast
    unfold Int.fract
    ring
  unfold roundHalfEven
  by_cases h : Int.fract q < 1/2
  · rw [if_pos h, abs_le, efl]
    constructor <;> linarith
  · by_cases h2 : 1/2 < Int.fract q
    · rw [if_neg h, if_pos h2, abs_le, efl1]
      constructor <;> linarith
    · have he : Int.fract q = 1/2 := le_antisymm (not_lt.mp h2) (not_lt.mp h)
      rw [if_neg h, if_neg h2]
      split
      · rw [abs_le, efl, he]
        constructor <;> norm_num
      · rw [abs_le, efl1, he]
        constructor <;> norm_num

theorem roundHalfEven_tie (c : ℤ) :
    roundHalfEven ((c : ℚ) + 1/2) = if c % 2 = 0 then c else c + 1 := by
  have hhalf : Int.fract ((1 : ℚ)/2) = 1/2 :=
    Int.fract_eq_self.mpr ⟨by norm_num, by norm_num⟩
  have hfr : Int.fract ((c : ℚ) + 1/2) = 1/2 := by
    rw [Int.fract_int_add, hhalf]
  have hfl : ⌊(c : ℚ) + 1/2⌋ = c := by
    rw [Int.floor_int_add]
    have : ⌊(1 : ℚ)/2⌋ = 0 := by
      rw [Int.floor_eq_iff]
      norm_num
    omega
  unfold roundHalfEven
  rw [hfr, hfl]
  norm_num

theorem installmentPlan_eq (P : ℤ) (n : ℕ) :
    installmentPlan P (n + 1) =
      List.replicate n (perInstallment P (n + 1)) ++
        [perInstallment P (n + 1) + installmentDiff P (n + 1)] := by
  unfold installmentPlan
  rw [List.range_succ, List.map_append]
  congr 1
  · apply List.eq_replicate_iff.mpr
    refine ⟨by simp, ?_⟩
    intro b hb
    rcases List.mem_map.mp hb with ⟨k, hk, rfl⟩
    have hklt : k < n := List.mem_range.mp hk
    unfold installmentAmount
    rw [if_neg]
    rintro ⟨h1, _⟩
    omega
  · simp only [List.map_cons, List.map_nil]
    congr 1
    unfold installmentAmount
    by_cases hd : installmentDiff P (n + 1) = 0
    · rw [if_neg (by tauto), hd, add_zero]
    · rw [if_pos ⟨rfl, hd⟩]

/-- C1: for every installment count `N ≥ 1` and principal `P ≥ 0` (cents),
`create_sale` produces exactly `N` installments; the first `N-1` have amount
`per = round2(P / N)`, the last has `per + (P - per * N)`, and the amounts
sum to `round2(P)` exactly (`P` is already 2-digit quantized, so
`round2(P) = P`): the rounding remainder is absorbed only into
installment `N`. -/
theorem c1_amortization_sum (P : ℤ) (N : ℕ) (hN : 1 ≤ N) (_hP : 0 ≤ P) :
    (installmentPlan P N).length = N ∧
    (∀ k, k < N - 1 → (installmentPlan P N)[k]? = some (perInstallment P N)) ∧
    (installmentPlan P N)[N - 1]? =
      some (perInstallment P N + (P - perInstallment P N * N)) ∧
    (installmentPlan P N).sum = P := by
  obtain ⟨n, rfl⟩ : ∃ n, N = n + 1 := ⟨N - 1, by omega⟩
  have hplan := installmentPlan_eq P n
  have hrep : (List.replicate n (perInstallment P (n + 1))).length = n := by simp
  refine ⟨?_, ?_, ?_, ?_⟩
  · rw [hplan]
    simp
  · intro k hk
    have hk' : k < n := by omega
    rw [hplan, List.getElem?_append, if_pos (by omega)]
    simp [List.getElem?_replicate, hk']
  · rw [hplan]
    have hn : n + 1 - 1 = n := by omega
    rw [hn, List.getElem?_append, if_neg (by omega), hrep]
    simp [installmentDiff]
  · rw [hplan, List.sum_append, List.sum_replicate]
    simp only [List.sum_cons, List.sum_nil, nsmul_eq_mul, installmentDiff]
    push_cast
    ring

/-- Witness for C1 at the spec scenario `P = 1000.00`, `N = 3`. -/
theorem c1_amortization_sum_witness :
    1 ≤ 3 ∧ (0 : ℤ) ≤ 100000 ∧
      ((installmentPlan 100000 3).length = 3 ∧
        (∀ k, k < 3 - 1 → (installmentPlan 100000 3)[k]? =
          some (perInstallment 100000 3)) ∧
        (installmentPlan 100000 3)[3 - 1]? =
          some (perInstallment 100000 3 +
            (100000 - perInstallment 100000 3 * 3)) ∧
        (installmentPlan 100000 3).sum = 100000) :=
  ⟨by decide, by decide, c1_amortization_sum 100000 3 (by decide) (by decide)⟩

/-! ## Billing domain model (infra/models.py status enums) -/

inductive SaleStatus where
  | DRAFT
  | CONFIRMED
  | CANCELED
deriving DecidableEq, Repr

inductive PromissoryStatus where
  | DRAFT
  | ISSUED
  | CANCELED
  | PAID
deriving DecidableEq, Repr

inductive InstallmentStatus where
  | PENDING
  | PAID
  | CANCELED
deriving DecidableEq, Repr

/-- The fields of `InstallmentORM` that the billing services read or write
(amounts in cents, timestamps in seconds). -/
structure Installment where
  number : ℕ
  amount : ℤ
  status : InstallmentStatus
  paidAt : Option ℕ
  paidAmount : Option ℤ
deriving DecidableEq, Repr

/-- One promissory with its installments and the status of its optional
sale (`prom.sale` relationship), the state `pay_installment` and
`cancel_promissory` operate on. -/
structure PromState where
  promStatus : PromissoryStatus
  installments : List Installment
  saleStatus : Option SaleStatus
deriving DecidableEq, Repr

/-! ## Sale status transitions (`update_sale_status`, sales_service.py
lines 49-73) -/

/-- `ALLOWED_TRANSITIONS`: DRAFT may go to CONFIRMED or CANCELED; CONFIRMED
and CANCELED allow nothing. -/
def allowedTransition : SaleStatus → SaleStatus → Bool
  | .DRAFT, .CONFIRMED => true
  | .DRAFT, .CANCELED => true
  | _, _ => false

/-- The `SaleORM` fields relevant to `update_sale_status`. -/
structure Sale where
  publicId : ℕ
  total : ℤ
  discount : ℤ
  status : SaleStatus
deriving DecidableEq, Repr

inductive SaleUpdateError where
  | notFound
  | invalidTransition
deriving DecidableEq, Repr

/-- `update_sale_status`: not-found when the id resolves to nothing; a
request equal to the current status returns the sale untouched before the
transition table is consulted; otherwise the table decides. -/
def update_sale_status (sale? : Option Sale) (newStatus : SaleStatus) :
    Except SaleUpdateError Sale :=
  match sale? with
  | none => .error .notFound
  | some sale =>
    if sale.status = newStatus then .ok sale
    else if allowedTransition sale.status newStatus
    then .ok { sale with status := newStatus }
    else .error .invalidTransition

/-! ## Payment application (`pay_installment`, sales_service.py
lines 323-363) -/

inductive PayError where
  | notFound
  | promissoryCanceled
  | installmentCanceled
  | negativeAmount
deriving DecidableEq, Repr

/-- Tail of `pay_installment` after the status checks: the sign check on
the quantized amount, the mutation of the installment, and the all-paid
cascade onto the promissory and its non-CANCELED sale. -/
def pay_apply (s : PromState) (idx : ℕ) (inst : Installment)
    (amountToPay : ℤ) (now : ℕ) :
    Except PayError (PromState × Installment) :=
  if amountToPay < 0 then .error .negativeAmount
  else
    let inst' : Installment :=
      { inst with status := .PAID, paidAt := some now,
                  paidAmount := some amountToPay }
    let insts' := s.installments.set idx inst'
    if insts'.all (fun i => i.status = .PAID) then
      .ok ({ promStatus := .PAID,
             installments := insts',
             saleStatus :=
               match s.saleStatus with
               | some st =>
                 if st ≠ .CANCELED then some .CONFIRMED else some st
               | none => none }, inst')
    else .ok ({ s with installments := insts' }, inst')

/-- `pay_installment`, with the installment addressed by its index in the
promissory's installment list.  Mirrors the source order: lookup, parent
CANCELED check, installment CANCELED check, already-PAID no-op, then
amount quantization and `pay_apply`. -/
def pay_installment (s : PromState) (idx : ℕ) (paidAmount : Option ℚ)
    (now : ℕ) : Except PayError (PromState × Installment) :=
  match s.installments[idx]? with
  | none => .error .notFound
  | some inst =>
    if s.promStatus = .CANCELED then .error .promissoryCanceled
    else if inst.status = .CANCELED then .error .installmentCanceled
    else if inst.status = .PAID then .ok (s, inst)
    else
      pay_apply s idx inst
        (match paidAmount with
          | some q => roundHalfEven (100 * q)
          | none => inst.amount) now

/-! ## Promissory cancellation (`cancel_promissory`, sales_service.py
lines 286-320) -/

/-- `PROM_ALLOWED_TRANSITIONS` membership test: may `from` move to `to`? -/
def promAllowedTransition : PromissoryStatus → PromissoryStatus → Bool
  | .DRAFT, .CANCELED => true
  | .DRAFT, .ISSUED => true
  | .ISSUED, .CANCELED => true
  | .ISSUED, .PAID => true
  | _, _ => false

inductive CancelError where
  | notFound
  | alreadyPaid
  | hasPaidInstallment
  | invalidTransition
deriving DecidableEq, Repr

/-- One step of the cancellation cascade: a PENDING installment becomes
CANCELED, anything else is untouched. -/
def cancelPendingInstallment (i : Installment) : Installment :=
  if i.status = .PENDING then { i with status := .CANCELED } else i

/-- `cancel_promissory`: early no-op return on an already CANCELED
promissory, refusal on a PAID promissory, refusal when any installment is
PAID, the (always satisfied here) transition-table check, then the cascade. -/
def cancel_promissory (s : PromState) : Except CancelError PromState :=
  if s.promStatus = .CANCELED then .ok s
  else if s.promStatus = .PAID then .error .alreadyPaid
  else if s.installments.any (fun i => i.status = .PAID) then
    .error .hasPaidInstallment
  else if ¬ promAllowedTransition s.promStatus .CANCELED then
    .error .invalidTransition
  else
    .ok { s with promStatus := .CANCELED,
                 installments := s.installments.map cancelPendingInstallment }

theorem pay_apply_cascade (s : PromState) (idx : ℕ) (inst : Installment)
    (amt : ℤ) (now : ℕ) (s' : PromState) (r : Installment)
    (hok : pay_apply s idx inst amt now = .ok (s', r)) :
    ((s'.installments.all (fun i => i.status = .PAID)) = true →
        s'.promStatus = .PAID ∧
        (∀ st, s.saleStatus = some st → st ≠ .CANCELED →
          s'.saleStatus = some .CONFIRMED)) ∧
    ((s'.installments.all (fun i => i.status = .PAID)) ≠ true →
        s'.promStatus = s.promStatus ∧ s'.saleStatus = s.saleStatus) := by
  unfold pay_apply at hok
  by_cases hneg : amt < 0
  · rw [if_pos hneg] at hok
    exact absurd hok (by simp)
  rw [if_neg hneg] at hok
  dsimp only at hok
  by_cases hall :
      ((s.installments.set idx
          { inst with
              status := .PAID
              paidAt := some now
              paidAmount := some amt }).all
        (fun i => i.status = .PAID)) = true
  · rw [if_pos hall] at hok
    rw [Except.ok.injEq, Prod.mk.injEq] at hok
    obtain ⟨h1, h2⟩ := hok
    subst h1
    refine ⟨fun _ => ⟨rfl, fun st hst hstc => ?_⟩, fun hna => absurd hall hna⟩
    simp only [hst]
    rw [if_pos hstc]
  · rw [if_neg hall] at hok
    rw [Except.ok.injEq, Prod.mk.injEq] at hok
    obtain ⟨h1, h2⟩ := hok
    subst h1
    exact ⟨fun h => absurd h hall, fun _ => ⟨rfl, rfl⟩⟩

/-- C2: when `pay_installment` actually applies a payment (the addressed
installment was not yet PAID), then afterwards: if every installment of
the parent promissory is PAID, the promissory becomes PAID and a sale
whose status is not CANCELED becomes CONFIRMED; if at least one
installment is not PAID, the promissory and sale statuses are unchanged. -/
theorem c2_paid_cascade (s : PromState) (idx : ℕ) (inst : Installment)
    (paid : Option ℚ) (now : ℕ) (s' : PromState) (r : Installment)
    (hg : s.installments[idx]? = some inst)
    (hnp : inst.status ≠ .PAID)
    (hok : pay_installment s idx paid now = .ok (s', r)) :
    ((s'.installments.all (fun i => i.status = .PAID)) = true →
        s'.promStatus = .PAID ∧
        (∀ st, s.saleStatus = some st → st ≠ .CANCELED →
          s'.saleStatus = some .CONFIRMED)) ∧
    ((s'.installments.all (fun i => i.status = .PAID)) ≠ true →
        s'.promStatus = s.promStatus ∧ s'.saleStatus = s.saleStatus) := by
  unfold pay_installment at hok
  rw [hg] at hok
  dsimp only at hok
  by_cases hc : s.promStatus = .CANCELED
  · rw [if_pos hc] at hok
    exact absurd hok (by simp)
  rw [if_neg hc] at hok
  by_cases hic : inst.status = .CANCELED
  · rw [if_pos hic] at hok
    exact absurd hok (by simp)
  rw [if_neg hic] at hok
  rw [if_neg hnp] at hok
  exact pay_apply_cascade s idx inst _ now s' r hok

/-- C3: `pay_installment` is an idempotent no-op on an already PAID
installment (parent not CANCELED), fails not-found when the installment
does not exist, fails with the installment-canceled conflict on a
CANCELED installment, and fails with the promissory-canceled conflict
when the parent promissory is CANCELED; every failure returns an error
without producing a new state, so all entities are unchanged. -/
theorem c3_pay_failure_modes :
    (∀ (s : PromState) (idx : ℕ) (inst : Installment) (paid : Option ℚ)
        (now : ℕ), s.installments[idx]? = some inst →
        s.promStatus ≠ .CANCELED → inst.status = .PAID →
        pay_installment s idx paid now = .ok (s, inst)) ∧
    (∀ (s : PromState) (idx : ℕ) (paid : Option ℚ) (now : ℕ),
        s.installments[idx]? = none →
        pay_installment s idx paid now = .error .notFound) ∧
    (∀ (s : PromState) (idx : ℕ) (inst : Installment) (paid : Option ℚ)
        (now : ℕ), s.installments[idx]? = some inst →
        s.promStatus ≠ .CANCELED → inst.status = .CANCELED →
        pay_installment s idx paid now = .error .installmentCanceled) ∧
    (∀ (s : PromState) (idx : ℕ) (inst : Installment) (paid : Option ℚ)
        (now : ℕ), s.installments[idx]? = some inst →
        s.promStatus = .CANCELED →
        pay_installment s idx paid now = .error .promissoryCanceled) := by
  refine ⟨?_, ?_, ?_, ?_⟩
  · intro s idx inst paid now hg hc hp
    unfold pay_installment
    rw [hg]
    simp only [if_neg hc]
    rw [if_neg (by rw [hp]; decide), if_pos hp]
  · intro s idx paid now hg
    unfold pay_installment
    rw [hg]
  · intro s idx inst paid now hg hc hic
    unfold pay_installment
    rw [hg]
    simp only [if_neg hc]
    rw [if_pos hic]
  · intro s idx inst paid now hg hc
    unfold pay_installment
    rw [hg]
    simp only [if_pos hc]

/-- C6 (amended): the conflict refusal fires whenever an installment is
PAID and the promissory is not itself already CANCELED (canceling a
CANCELED promissory is an early no-op returning it unchanged); with no
PAID installment, a DRAFT or ISSUED promissory is CANCELED and the
cascade turns exactly the PENDING installments into CANCELED ones. -/
theorem c6_cancel_amended :
    (∀ s : PromState, s.promStatus ≠ .CANCELED →
        (s.installments.any (fun i => i.status = .PAID)) = true →
        cancel_promissory s = .error
          (if s.promStatus = .PAID then .alreadyPaid
           else .hasPaidInstallment)) ∧
    (∀ s : PromState, (s.promStatus = .DRAFT ∨ s.promStatus = .ISSUED) →
        (s.installments.any (fun i => i.status = .PAID)) = false →
        cancel_promissory s = .ok
          { s with promStatus := .CANCELED,
                   installments :=
                     s.installments.map cancelPendingInstallment }) ∧
    (∀ i : Installment, i.status = .PENDING →
        cancelPendingInstallment i = { i with status := .CANCELED }) ∧
    (∀ i : Installment, i.status ≠ .PENDING →
        cancelPendingInstallment i = i) := by
  refine ⟨?_, ?_, ?_, ?_⟩
  · intro s hc hp
    unfold cancel_promissory
    rw [if_neg hc]
    by_cases hpaid : s.promStatus = .PAID
    · rw [if_pos hpaid, if_pos hpaid]
    · rw [if_neg hpaid, if_neg hpaid, if_pos hp]
  · intro s hds hnp
    unfold cancel_promissory
    rcases hds with h | h <;>
      rw [if_neg (by rw [h]; decide), if_neg (by rw [h]; decide),
        if_neg (by rw [hnp]; decide), if_neg (by rw [h]; decide)]
  · intro i hp
    unfold cancelPendingInstallment
    rw [if_pos hp]
  · intro i hnp
    unfold cancelPendingInstallment
    rw [if_neg hnp]

/-- C10: requesting the sale's current status is accepted and returns the
sale with every field unchanged — also in the terminal statuses CONFIRMED
and CANCELED — and only a differing requested status is checked against
`ALLOWED_TRANSITIONS`. -/
theorem c10_same_status_noop :
    (∀ sale : Sale,
        update_sale_status (some sale) sale.status = .ok sale) ∧
    (∀ (sale : Sale) (ns : SaleStatus), ns ≠ sale.status →
        update_sale_status (some sale) ns =
          if allowedTransition sale.status ns
          then .ok { sale with status := ns }
          else .error .invalidTransition) := by
  constructor
  · intro sale
    simp [update_sale_status]
  · intro sale ns hne
    simp only [update_sale_status]
    rw [if_neg (fun h => hne h.symm)]

/-! ## Concrete billing fixtures used by witnesses and counterexamples -/

def instPending1 : Installment := ⟨1, 10000, .PENDING, none, none⟩

def instPaid1 : Installment := ⟨1, 10000, .PAID, some 5, some 10000⟩

def instCanc1 : Installment := ⟨1, 10000, .CANCELED, none, none⟩

def promOne : PromState := ⟨.ISSUED, [instPending1], some .DRAFT⟩

def promOnePaid : PromState := ⟨.PAID, [instPaid1], some .CONFIRMED⟩

def promNoopPaid : PromState := ⟨.ISSUED, [instPaid1], some .DRAFT⟩

def promInstCanc : PromState := ⟨.ISSUED, [instCanc1], none⟩

def promCancState : PromState := ⟨.CANCELED, [instCanc1], none⟩

def promCancPaid : PromState := ⟨.CANCELED, [instPaid1], none⟩

def promConflict : PromState := ⟨.ISSUED, [instPaid1, instPending1], none⟩

def promCascade : PromState := ⟨.DRAFT, [instPending1, instCanc1], none⟩

def saleConfirmed : Sale := ⟨1, 100, 0, .CONFIRMED⟩

/-- Witness for C2: paying the single PENDING installment of a
1-installment promissory marks the promissory PAID and its DRAFT sale
CONFIRMED. -/
theorem c2_paid_cascade_witness :
    promOne.installments[0]? = some instPending1 ∧
    instPending1.status ≠ .PAID ∧
    pay_installment promOne 0 none 5 = .ok (promOnePaid, instPaid1) ∧
    (((promOnePaid.installments.all (fun i => i.status = .PAID)) = true →
        promOnePaid.promStatus = .PAID ∧
        (∀ st, promOne.saleStatus = some st → st ≠ .CANCELED →
          promOnePaid.saleStatus = some .CONFIRMED)) ∧
      ((promOnePaid.installments.all (fun i => i.status = .PAID)) ≠ true →
        promOnePaid.promStatus = promOne.promStatus ∧
        promOnePaid.saleStatus = promOne.saleStatus)) :=
  ⟨rfl, by decide, rfl,
    c2_paid_cascade promOne 0 instPending1 none 5 promOnePaid instPaid1 rfl
      (by decide) rfl⟩

/-- Witness for C3: the four failure/no-op modes at concrete states. -/
theorem c3_pay_failure_modes_witness :
    pay_installment promNoopPaid 0 none 0 = .ok (promNoopPaid, instPaid1) ∧
    pay_installment promOne 5 none 0 = .error .notFound ∧
    pay_installment promInstCanc 0 none 0 = .error .installmentCanceled ∧
    pay_installment promCancState 0 none 0 = .error .promissoryCanceled :=
  ⟨c3_pay_failure_modes.1 promNoopPaid 0 instPaid1 none 0 rfl (by decide) rfl,
    c3_pay_failure_modes.2.1 promOne 5 none 0 rfl,
    c3_pay_failure_modes.2.2.1 promInstCanc 0 instCanc1 none 0 rfl (by decide)
      rfl,
    c3_pay_failure_modes.2.2.2 promCancState 0 instCanc1 none 0 rfl rfl⟩

/-- Counterexample to C6 as stated: a promissory whose status is already
CANCELED and which carries a PAID installment is returned unchanged by
`cancel_promissory` (the early no-op return fires before the
PAID-installment conflict check), so the call does not fail. -/
theorem c6_counterexample :
    (promCancPaid.installments.any (fun i => i.status = .PAID)) = true ∧
    cancel_promissory promCancPaid = .ok promCancPaid :=
  ⟨rfl, rfl⟩

/-- Witness for the amended C6 at concrete states. -/
theorem c6_cancel_amended_witness :
    cancel_promissory promConflict =
      .error (if promConflict.promStatus = .PAID then .alreadyPaid
              else .hasPaidInstallment) ∧
    cancel_promissory promCascade =
      .ok { promCascade with
              promStatus := .CANCELED
              installments :=
                promCascade.installments.map cancelPendingInstallment } ∧
    cancelPendingInstallment instPending1 =
      { instPending1 with status := .CANCELED } ∧
    cancelPendingInstallment instPaid1 = instPaid1 :=
  ⟨c6_cancel_amended.1 promConflict (by decide) rfl,
    c6_cancel_amended.2.1 promCascade (Or.inl rfl) rfl,
    c6_cancel_amended.2.2.1 instPending1 rfl,
    c6_cancel_amended.2.2.2 instPaid1 (by decide)⟩

/-- Witness for C10: a CONFIRMED (terminal) sale accepts its own status as
a no-op, and a differing request goes through the transition table. -/
theorem c10_same_status_noop_witness :
    update_sale_status (some saleConfirmed) saleConfirmed.status =
      .ok saleConfirmed ∧
    update_sale_status (some saleConfirmed) .DRAFT =
      (if allowedTransition saleConfirmed.status .DRAFT
       then .ok { saleConfirmed with status := .DRAFT }
       else .error .invalidTransition) :=
  ⟨c10_same_status_noop.1 saleConfirmed,
    c10_same_status_noop.2 saleConfirmed .DRAFT (by decide)⟩

/-! ## C4: the rounding mode of `_quantize_money`.
`Decimal.quantize(Decimal("0.01"))` runs under the default decimal
context, whose rounding is ROUND_HALF_EVEN, not ROUND_HALF_UP. -/

theorem roundHalfEven_25_half : roundHalfEven (100 * (125/1000 : ℚ)) = 12 := by
  have h : (100 * (125/1000 : ℚ)) = ((12 : ℤ) : ℚ) + 1/2 := by norm_num
  rw [h, roundHalfEven_tie]
  norm_num

/-- Counterexample to C4 as stated: paying an installment with an explicit
`paid_amount` of 0.125 (a third-decimal tie) stores `paid_amount` 0.12
(12 cents), i.e. the tie is resolved to the even cent, not away from the
smaller value as round-half-up would demand (0.13). -/
theorem c4_counterexample :
    pay_installment promOne 0 (some (125/1000)) 0 =
      .ok (⟨.PAID, [⟨1, 10000, .PAID, some 0, some 12⟩], some .CONFIRMED⟩,
        ⟨1, 10000, .PAID, some 0, some 12⟩) ∧
    (12 : ℤ) ≠ 13 := by
  constructor
  · show pay_apply promOne 0 instPending1
        (roundHalfEven (100 * (125/1000 : ℚ))) 0 = _
    rw [roundHalfEven_25_half]
    rfl
  · decide

/-- C4 (amended): every currency value is quantized to 2 decimal digits
with ROUND_HALF_EVEN before storage: the stored value is
`roundHalfEven(100 v)/100`, it is within half a cent of the exact value,
a half-cent tie goes to the even cent, and in particular 0.125 is stored
as 0.12 while 0.135 is stored as 0.14. -/
theorem c4_quantize_half_even :
    (∀ v : ℚ, quantizeMoney v = (roundHalfEven (100 * v) : ℚ) / 100 ∧
        |quantizeMoney v - v| ≤ 1/200) ∧
    (∀ c : ℤ, roundHalfEven ((c : ℚ) + 1/2) =
        if c % 2 = 0 then c else c + 1) ∧
    quantizeMoney (125/1000) = 12/100 ∧
    quantizeMoney (135/1000) = 14/100 := by
  refine ⟨fun v => ⟨rfl, ?_⟩, roundHalfEven_tie, ?_, ?_⟩
  · have h := roundHalfEven_dist (100 * v)
    have e : quantizeMoney v - v = ((roundHalfEven (100 * v) : ℚ) - 100 * v) / 100 := by
      unfold quantizeMoney
      ring
    rw [e, abs_div]
    rw [abs_of_pos (by norm_num : (0:ℚ) < 100)]
    linarith
  · unfold quantizeMoney
    rw [roundHalfEven_25_half]
    norm_num
  · unfold quantizeMoney
    have h : (100 * (135/1000 : ℚ)) = ((13 : ℤ) : ℚ) + 1/2 := by norm_num
    rw [h, roundHalfEven_tie]
    norm_num

/-! ## Send-state tracker (worker.py): backoff and eligibility -/

inductive WppSendStatus where
  | PENDING
  | SENDING
  | SENT
  | FAILED
deriving DecidableEq, Repr

inductive FinanceStatus where
  | PENDING
  | PAID
  | CANCELED
deriving DecidableEq, Repr

/-- Python `s[:n]` (slice of the first `n` characters). -/
def strSlice (s : String) (n : ℕ) : String :=
  ⟨s.data.take n⟩

/-- Python `s.strip()`: drop whitespace from both ends. -/
def strStrip (s : String) : String :=
  ⟨((s.data.dropWhile (fun c => c.isWhitespace)).reverse.dropWhile
      (fun c => c.isWhitespace)).reverse⟩

/-- `compute_backoff_seconds` (worker.py lines 154-163); the argument is
the tries counter, so `tries <= 0` on ℕ is `tries = 0`. -/
def compute_backoff_seconds (tries : ℕ) : ℕ :=
  if tries = 0 then 60
  else if tries = 1 then 5 * 60
  else if tries = 2 then 15 * 60
  else if tries = 3 then 60 * 60
  else 6 * 60 * 60

/-- The per-channel send-state fields mutated by `mark_failed_generic`
(`wpp_tries`, `wpp_status`, `wpp_last_error`, `wpp_next_retry_at` and
their per-category twins). -/
structure SendState where
  status : Option WppSendStatus
  tries : ℕ
  lastError : Option String
  nextRetryAt : Option ℕ
deriving DecidableEq, Repr

/-- `mark_failed_generic` (worker.py lines 174-187): increment tries, set
FAILED, truncate the error text, and schedule the retry at
`now + compute_backoff_seconds(tries)` with the *incremented* counter. -/
def mark_failed_generic (st : SendState) (now : ℕ) (err : String) :
    SendState :=
  let tries := st.tries + 1
  { status := some .FAILED
    tries := tries
    lastError := some (strSlice err 500)
    nextRetryAt := some (now + compute_backoff_seconds tries) }

/-- `can_try` (worker.py lines 166-171). -/
def can_try (status : Option WppSendStatus) (nextRetryAt : Option ℕ)
    (now : ℕ) : Bool :=
  if status = some .SENT ∨ status = some .SENDING then false
  else
    match nextRetryAt with
    | none => true
    | some t => t ≤ now

/-- Counterexample to C5 as stated: after the first consecutive failure
(`tries` goes 0 → 1) the retry is scheduled `5 * 60` seconds ahead, not
the claimed `backoff(1) = 1` minute — the 60-second table entry sits at
argument 0, which the incremented counter never produces. -/
theorem c5_counterexample :
    (mark_failed_generic ⟨some .PENDING, 0, none, none⟩ 0 "boom").nextRetryAt
        = some 300 ∧
    (300 : ℕ) ≠ 60 :=
  ⟨rfl, by decide⟩

/-- C5 (amended): the k-th consecutive failure schedules the retry at the
failure time plus `compute_backoff_seconds k` with the table 1 → 5 min,
2 → 15 min, 3 → 60 min and 6 hours for every `k ≥ 4`; the table is
monotonically non-decreasing and capped at 6 hours. -/
theorem c5_backoff_amended :
    (∀ (st : SendState) (now : ℕ) (err : String),
        (mark_failed_generic st now err).tries = st.tries + 1 ∧
        (mark_failed_generic st now err).status = some .FAILED ∧
        (mark_failed_generic st now err).nextRetryAt =
          some (now + compute_backoff_seconds (st.tries + 1))) ∧
    compute_backoff_seconds 1 = 5 * 60 ∧
    compute_backoff_seconds 2 = 15 * 60 ∧
    compute_backoff_seconds 3 = 60 * 60 ∧
    (∀ k, 4 ≤ k → compute_backoff_seconds k = 6 * 60 * 60) ∧
    (∀ j k, j ≤ k → compute_backoff_seconds j ≤ compute_backoff_seconds k) ∧
    (∀ k, compute_backoff_seconds k ≤ 6 * 60 * 60) := by
  refine ⟨fun st now err => ⟨rfl, rfl, rfl⟩, rfl, rfl, rfl, ?_, ?_, ?_⟩
  · intro k hk
    unfold compute_backoff_seconds
    rw [if_neg (by omega), if_neg (by omega), if_neg (by omega),
      if_neg (by omega)]
  · intro j k h
    unfold compute_backoff_seconds
    split_ifs <;> omega
  · intro k
    unfold compute_backoff_seconds
    split_ifs <;> omega

/-- Witness for the amended C5: third consecutive failure at time 7. -/
theorem c5_backoff_amended_witness :
    (mark_failed_generic ⟨some .FAILED, 2, none, some 3⟩ 7 "x").nextRetryAt =
      some (7 + compute_backoff_seconds (2 + 1)) ∧
    compute_backoff_seconds 5 = 6 * 60 * 60 ∧
    compute_backoff_seconds 2 ≤ compute_backoff_seconds 4 :=
  ⟨(c5_backoff_amended.1 ⟨some .FAILED, 2, none, some 3⟩ 7 "x").2.2,
    c5_backoff_amended.2.2.2.2.1 5 (by decide),
    c5_backoff_amended.2.2.2.2.2.1 2 4 (by decide)⟩

/-! ## Dispatch engine eligibility (`process_finance`, worker.py
lines 946-972) -/

/-- The `FinanceORM` columns `process_finance` reads. -/
structure FinanceRow where
  status : FinanceStatus
  dueDate : ℤ
  wppStatus : Option WppSendStatus
  wppNextRetryAt : Option ℕ
deriving DecidableEq, Repr

/-- The WHERE clause of the `process_finance` query: status PENDING, due
today or earlier, channel not SENT (or never attempted), and no pending
retry timestamp in the future. -/
def financeQuery (today : ℤ) (now : ℕ) (f : FinanceRow) : Bool :=
  decide (f.status = .PENDING) && decide (f.dueDate ≤ today) &&
    (match f.wppStatus with
      | none => true
      | some s => decide (s ≠ .SENT)) &&
    (match f.wppNextRetryAt with
      | none => true
      | some t => decide (t ≤ now))

/-- The rows `process_finance` actually attempts to send: the query rows
(limit 50) that also pass the per-row `can_try` re-check.  `rows` is the
backing store's result sequence. -/
def process_finance_attempts (rows : List FinanceRow) (today : ℤ)
    (now : ℕ) : List FinanceRow :=
  ((rows.filter (financeQuery today now)).take 50).filter
    (fun f => can_try f.wppStatus f.wppNextRetryAt now)

/-- C7: `can_try` refuses SENT and SENDING outright and lets a FAILED
channel through exactly when `next_retry_at` is absent or has passed
`now`; consequently every row attempted by `process_finance` passes
`can_try`, is neither SENT nor SENDING, and — if FAILED with a retry
timestamp — has that timestamp at or before `now`. -/
theorem c7_no_send_before_backoff :
    (∀ (nr : Option ℕ) (now : ℕ), can_try (some .SENT) nr now = false) ∧
    (∀ (nr : Option ℕ) (now : ℕ), can_try (some .SENDING) nr now = false) ∧
    (∀ (t now : ℕ), can_try (some .FAILED) (some t) now = true ↔ t ≤ now) ∧
    (∀ now : ℕ, can_try (some .FAILED) none now = true) ∧
    (∀ (rows : List FinanceRow) (today : ℤ) (now : ℕ) (f : FinanceRow),
        f ∈ process_finance_attempts rows today now →
        can_try f.wppStatus f.wppNextRetryAt now = true ∧
        f.wppStatus ≠ some .SENT ∧ f.wppStatus ≠ some .SENDING ∧
        (∀ t, f.wppStatus = some .FAILED → f.wppNextRetryAt = some t →
          t ≤ now)) := by
  refine ⟨fun nr now => by simp [can_try], fun nr now => by simp [can_try],
    fun t now => by simp [can_try], fun now => by simp [can_try], ?_⟩
  intro rows today now f hmem
  have hct := (List.mem_filter.mp hmem).2
  refine ⟨hct, ?_, ?_, ?_⟩
  · intro hEq
    rw [hEq] at hct
    simp [can_try] at hct
  · intro hEq
    rw [hEq] at hct
    simp [can_try] at hct
  · intro t hf ht
    rw [hf, ht] at hct
    simpa [can_try] using hct

/-- Witness for C7: a FAILED row with elapsed backoff is attempted and
satisfies the eligibility conditions. -/
theorem c7_no_send_before_backoff_witness :
    can_try (some .SENT) none 0 = false ∧
    (can_try ((⟨.PENDING, 0, some .FAILED, some 5⟩ : FinanceRow)).wppStatus
        (⟨.PENDING, 0, some .FAILED, some 5⟩ : FinanceRow).wppNextRetryAt 10
      = true) :=
  ⟨c7_no_send_before_backoff.1 none 0,
    (c7_no_send_before_backoff.2.2.2.2
      [⟨.PENDING, 0, some .FAILED, some 5⟩] 0 10
      ⟨.PENDING, 0, some .FAILED, some 5⟩ (by decide)).1⟩

/-! ## Rate-limited campaign scheduler (worker.py lines 101-147 and
1301-1385).  The JSON state file holds an optional day key, an optional
last-hour mark and the product ids already broadcast today; days are
epoch-day integers, hours are clock hours. -/

structure OffersState where
  date : Option ℤ
  lastHourSent : Option ℕ
  sentProductIds : List ℕ
deriving DecidableEq, Repr

/-- `offers_can_send_now` (worker.py lines 101-114). -/
def offers_can_send_now (state : OffersState) (today : ℤ) (hour : ℕ)
    (startHour endHour : ℕ) : Bool :=
  if hour < startHour ∨ endHour < hour then false
  else if state.date ≠ some today then true
  else if state.lastHourSent = some hour then false
  else true

structure ProductImage where
  position : Option ℕ
  url : String
deriving DecidableEq, Repr

structure OfferProduct where
  id : ℕ
  images : List ProductImage
deriving DecidableEq, Repr

/-- The ids already sent today: the persisted set when the persisted day
key is today, empty otherwise (worker.py lines 1319-1330). -/
def sentTodayIds (state : OffersState) (today : ℤ) : List ℕ :=
  if state.date = some today then state.sentProductIds else []

/-- `sorted(p.images, key=position or 9999)[0]`: the first image of
minimal position (stable sort head = first minimum). -/
def coverImage (imgs : List ProductImage) : Option ProductImage :=
  imgs.foldl
    (fun acc i =>
      match acc with
      | none => some i
      | some j =>
        if i.position.getD 9999 < j.position.getD 9999 then some i
        else some j)
    none

/-- The stripped cover url of a product, `none` when the product has no
image or the stripped key is empty (continue cases of the loop). -/
def productCoverKey (p : OfferProduct) : Option String :=
  match coverImage p.images with
  | none => none
  | some c =>
    let k := strStrip c.url
    if k = "" then none else some k

/-- The selection loop of `process_hourly_product_offer` (worker.py lines
1335-1350): walk the query rows, skip products already sent today and
products without a usable cover image, pick the first remaining one. -/
def chooseOffer : List OfferProduct → List ℕ → Option OfferProduct
  | [], _ => none
  | p :: rest, sent =>
    if p.id ∈ sent then chooseOffer rest sent
    else
      match productCoverKey p with
      | some _ => some p
      | none => chooseOffer rest sent

/-- C8: the campaign gate is true exactly when the hour lies in the
window and (the persisted day differs from today, or the persisted
last-hour-sent differs from the current hour); and the hourly selection
never chooses a product whose id is in the persisted set of ids sent on
the current calendar day. -/
theorem c8_campaign_scheduler :
    (∀ (state : OffersState) (today : ℤ) (hour startHour endHour : ℕ),
        offers_can_send_now state today hour startHour endHour = true ↔
          (startHour ≤ hour ∧ hour ≤ endHour) ∧
            (state.date ≠ some today ∨ state.lastHourSent ≠ some hour)) ∧
    (∀ (products : List OfferProduct) (state : OffersState) (today : ℤ)
        (p : OfferProduct),
        chooseOffer products (sentTodayIds state today) = some p →
        p.id ∉ sentTodayIds state today) := by
  constructor
  · intro state today hour startHour endHour
    unfold offers_can_send_now
    split_ifs with h1 h2 h3
    · simp only [Bool.false_eq_true, false_iff]
      rintro ⟨⟨ha, hb⟩, _⟩
      omega
    · simp only [true_iff]
      exact ⟨⟨by omega, by omega⟩, Or.inl h2⟩
    · simp only [Bool.false_eq_true, false_iff]
      push_neg at h2
      rintro ⟨_, hc | hc⟩ <;> exact hc (by assumption)
    · simp only [true_iff]
      exact ⟨⟨by omega, by omega⟩, Or.inr h3⟩
  · intro products state today p
    induction products with
    | nil => intro h; exact absurd h (by simp [chooseOffer])
    | cons q rest ih =>
      intro h
      unfold chooseOffer at h
      by_cases hq : q.id ∈ sentTodayIds state today
      · rw [if_pos hq] at h
        exact ih h
      · rw [if_neg hq] at h
        cases hck : productCoverKey q with
        | none =>
          rw [hck] at h
          exact ih h
        | some k =>
          rw [hck] at h
          dsimp only at h
          rw [Option.some.injEq] at h
          subst h
          exact hq

/-- Witness for C8: a mid-window hour with a fresh hour mark passes the
gate, and the selection skips the already-sent product id 7. -/
theorem c8_campaign_scheduler_witness :
    offers_can_send_now ⟨some 20000, some 9, [7]⟩ 20000 10 7 21 = true ∧
    (7 : ℕ) ∈ sentTodayIds ⟨some 20000, some 9, [7]⟩ 20000 ∧
    chooseOffer
        [⟨7, [⟨some 1, "a"⟩]⟩, ⟨8, [⟨some 1, "b"⟩]⟩]
        (sentTodayIds ⟨some 20000, some 9, [7]⟩ 20000) =
      some ⟨8, [⟨some 1, "b"⟩]⟩ ∧
    (8 : ℕ) ∉ sentTodayIds ⟨some 20000, some 9, [7]⟩ 20000 :=
  ⟨(c8_campaign_scheduler.1 ⟨some 20000, some 9, [7]⟩ 20000 10 7 21).mpr
      ⟨⟨by decide, by decide⟩, Or.inr (by decide)⟩,
    by decide, by decide,
    c8_campaign_scheduler.2 [⟨7, [⟨some 1, "a"⟩]⟩, ⟨8, [⟨some 1, "b"⟩]⟩]
      ⟨some 20000, some 9, [7]⟩ 20000 ⟨8, [⟨some 1, "b"⟩]⟩ (by decide)⟩

/-! ## Periodic report scheduler (worker.py lines 507-676).
Weekly arithmetic works on epoch-day integers with the epoch on a Monday,
so Python `date.weekday()` is `d % 7` and `today - timedelta(days=weekday)`
is `d - d % 7`.  Monthly arithmetic works on year/month/day triples.
Labels are modelled as the injective data the formatted strings carry:
the (monday, sunday) pair and the (year, month) pair. -/

/-- `week_start_end_local` (worker.py lines 511-514). -/
def week_start_end_local (today : ℤ) : ℤ × ℤ :=
  (today - today % 7, today - today % 7 + 6)

/-- Python tuple comparison `(h1, m1) < (h2, m2)`. -/
def timeBefore (h1 m1 h2 m2 : ℕ) : Bool :=
  decide (h1 < h2) || (decide (h1 = h2) && decide (m1 < m2))

structure TickTime where
  today : ℤ
  hour : ℕ
  minute : ℕ
deriving DecidableEq, Repr

/-- `process_weekly_report_text` (worker.py lines 529-639), reduced to its
gate and persistence behaviour: the enabled flag, weekday check, trigger
time check, label dedup check, then the send whose success (`sendOk`)
persists the label.  Returns (sent?, new persisted label). -/
def process_weekly_report_text (enabled : Bool) (wd : ℤ) (hour minute : ℕ)
    (t : TickTime) (persisted : Option (ℤ × ℤ)) (sendOk : Bool) :
    Bool × Option (ℤ × ℤ) :=
  if ¬ enabled then (false, persisted)
  else if t.today % 7 ≠ wd then (false, persisted)
  else if timeBefore t.hour t.minute hour minute then (false, persisted)
  else if persisted = some (week_start_end_local t.today) then
    (false, persisted)
  else if sendOk then (true, some (week_start_end_local t.today))
  else (false, persisted)

def isLeapYear (y : ℤ) : Bool :=
  (decide (y % 4 = 0) && decide (y % 100 ≠ 0)) || decide (y % 400 = 0)

def daysInMonth (y : ℤ) (m : ℕ) : ℕ :=
  if m = 2 then (if isLeapYear y then 29 else 28)
  else if m = 4 ∨ m = 6 ∨ m = 9 ∨ m = 11 then 30
  else 31

structure CalDate where
  year : ℤ
  month : ℕ
  day : ℕ
deriving DecidableEq, Repr

/-- `d + timedelta(days=1)` on calendar dates. -/
def nextDay (d : CalDate) : CalDate :=
  if d.day < daysInMonth d.year d.month then ⟨d.year, d.month, d.day + 1⟩
  else if d.month < 12 then ⟨d.year, d.month + 1, 1⟩
  else ⟨d.year + 1, 1, 1⟩

/-- `is_last_day_of_month` (worker.py lines 67-68). -/
def is_last_day_of_month (d : CalDate) : Bool :=
  decide ((nextDay d).month ≠ d.month)

/-- `monthly_label` (worker.py lines 646-647): the `YYYY-MM` pair. -/
def monthly_label (d : CalDate) : ℤ × ℕ :=
  (d.year, d.month)

/-- `process_monthly_report_pdf` (worker.py lines 658-805), reduced to its
gate and persistence behaviour: enabled flag, last-day-of-month check,
trigger time check, label dedup check, then the send whose success
persists the label. -/
def process_monthly_report_pdf (enabled : Bool) (hour minute : ℕ)
    (today : CalDate) (nowHour nowMinute : ℕ)
    (persisted : Option (ℤ × ℕ)) (sendOk : Bool) :
    Bool × Option (ℤ × ℕ) :=
  if ¬ enabled then (false, persisted)
  else if ¬ is_last_day_of_month today then (false, persisted)
  else if timeBefore nowHour nowMinute hour minute then (false, persisted)
  else if persisted = some (monthly_label today) then (false, persisted)
  else if sendOk then (true, some (monthly_label today))
  else (false, persisted)

/-- Number of weekly reports sent over a sequence of scheduler ticks,
threading the persisted label through. -/
def runWeekly (e : Bool) (wd : ℤ) (hour minute : ℕ) :
    List (TickTime × Bool) → Option (ℤ × ℤ) → ℕ
  | [], _ => 0
  | tk :: rest, p =>
    let r := process_weekly_report_text e wd hour minute tk.1 p tk.2
    (if r.1 then 1 else 0) + runWeekly e wd hour minute rest r.2

/-- Number of monthly reports sent over a sequence of scheduler ticks
(each tick: date, clock hour, clock minute, send outcome). -/
def runMonthly (e : Bool) (hour minute : ℕ) :
    List (CalDate × ℕ × ℕ × Bool) → Option (ℤ × ℕ) → ℕ
  | [], _ => 0
  | tk :: rest, p =>
    let r := process_monthly_report_pdf e hour minute tk.1 tk.2.1 tk.2.2.1 p
      tk.2.2.2
    (if r.1 then 1 else 0) + runMonthly e hour minute rest r.2

theorem weekly_step_sent (e : Bool) (wd : ℤ) (hr mi : ℕ) (t : TickTime)
    (p : Option (ℤ × ℤ)) (ok : Bool)
    (hs : (process_weekly_report_text e wd hr mi t p ok).1 = true) :
    p ≠ some (week_start_end_local t.today) ∧
    (process_weekly_report_text e wd hr mi t p ok).2 =
      some (week_start_end_local t.today) := by
  unfold process_weekly_report_text at hs ⊢
  split_ifs at hs ⊢ with h1 h2 h3 h4 h5 <;>
    first
      | exact absurd hs (by decide)
      | exact ⟨h4, rfl⟩

theorem weekly_step_nosend (e : Bool) (wd : ℤ) (hr mi : ℕ) (t : TickTime)
    (p : Option (ℤ × ℤ)) (ok : Bool)
    (hs : ¬ (process_weekly_report_text e wd hr mi t p ok).1 = true) :
    (process_weekly_report_text e wd hr mi t p ok).2 = p := by
  unfold process_weekly_report_text at hs ⊢
  split_ifs at hs ⊢ <;> first | rfl | exact absurd rfl hs

theorem weekly_step_locked (e : Bool) (wd : ℤ) (hr mi : ℕ) (t : TickTime)
    (L : ℤ × ℤ) (ok : Bool) (hL : week_start_end_local t.today = L) :
    process_weekly_report_text e wd hr mi t (some L) ok = (false, some L) := by
  unfold process_weekly_report_text
  split_ifs with h1 h2 h3 h4 <;>
    first
      | rfl
      | (exfalso; rw [hL] at h4; exact h4 rfl)

theorem runWeekly_locked (e : Bool) (wd : ℤ) (hr mi : ℕ)
    (ticks : List (TickTime × Bool)) (L : ℤ × ℤ)
    (hall : ∀ tk ∈ ticks, week_start_end_local tk.1.today = L) :
    runWeekly e wd hr mi ticks (some L) = 0 := by
  induction ticks with
  | nil => rfl
  | cons tk rest ih =>
    have hhd := hall tk (List.mem_cons_self tk rest)
    simp only [runWeekly, weekly_step_locked e wd hr mi tk.1 L tk.2 hhd,
      if_neg (by decide : ¬ (false = true)), Nat.zero_add]
    exact ih (fun x hx => hall x (List.mem_cons_of_mem tk hx))

theorem runWeekly_le_one (e : Bool) (wd : ℤ) (hr mi : ℕ)
    (ticks : List (TickTime × Bool)) (p : Option (ℤ × ℤ)) (L : ℤ × ℤ)
    (hall : ∀ tk ∈ ticks, week_start_end_local tk.1.today = L) :
    runWeekly e wd hr mi ticks p ≤ 1 := by
  induction ticks generalizing p with
  | nil => exact Nat.zero_le 1
  | cons tk rest ih =>
    have hhd := hall tk (List.mem_cons_self tk rest)
    have hrest : ∀ x ∈ rest, week_start_end_local x.1.today = L :=
      fun x hx => hall x (List.mem_cons_of_mem tk hx)
    by_cases hs : (process_weekly_report_text e wd hr mi tk.1 p tk.2).1 = true
    · have hsnd := (weekly_step_sent e wd hr mi tk.1 p tk.2 hs).2
      simp only [runWeekly, if_pos hs, hsnd, hhd]
      rw [runWeekly_locked e wd hr mi rest L hrest]
    · have hsnd := weekly_step_nosend e wd hr mi tk.1 p tk.2 hs
      simp only [runWeekly, if_neg hs, hsnd]
      simpa using ih p hrest

theorem monthly_step_sent (e : Bool) (hr mi : ℕ) (d : CalDate)
    (nh nm : ℕ) (p : Option (ℤ × ℕ)) (ok : Bool)
    (hs : (process_monthly_report_pdf e hr mi d nh nm p ok).1 = true) :
    is_last_day_of_month d = true ∧
    p ≠ some (monthly_label d) ∧
    (process_monthly_report_pdf e hr mi d nh nm p ok).2 =
      some (monthly_label d) := by
  unfold process_monthly_report_pdf at hs ⊢
  split_ifs at hs ⊢ with h1 h2 h3 h4 h5 <;>
    first
      | exact absurd hs (by decide)
      | exact ⟨by revert h2; cases is_last_day_of_month d <;> simp, h4, rfl⟩

theorem monthly_step_nosend (e : Bool) (hr mi : ℕ) (d : CalDate)
    (nh nm : ℕ) (p : Option (ℤ × ℕ)) (ok : Bool)
    (hs : ¬ (process_monthly_report_pdf e hr mi d nh nm p ok).1 = true) :
    (process_monthly_report_pdf e hr mi d nh nm p ok).2 = p := by
  unfold process_monthly_report_pdf at hs ⊢
  split_ifs at hs ⊢ <;> first | rfl | exact absurd rfl hs

theorem monthly_step_locked (e : Bool) (hr mi : ℕ) (d : CalDate)
    (nh nm : ℕ) (L : ℤ × ℕ) (ok : Bool) (hL : monthly_label d = L) :
    process_monthly_report_pdf e hr mi d nh nm (some L) ok =
      (false, some L) := by
  unfold process_monthly_report_pdf
  split_ifs with h1 h2 h3 h4 <;>
    first
      | rfl
      | (exfalso; rw [hL] at h4; exact h4 rfl)

theorem runMonthly_locked (e : Bool) (hr mi : ℕ)
    (ticks : List (CalDate × ℕ × ℕ × Bool)) (L : ℤ × ℕ)
    (hall : ∀ tk ∈ ticks, monthly_label tk.1 = L) :
    runMonthly e hr mi ticks (some L) = 0 := by
  induction ticks with
  | nil => rfl
  | cons tk rest ih =>
    have hhd := hall tk (List.mem_cons_self tk rest)
    simp only [runMonthly,
      monthly_step_locked e hr mi tk.1 tk.2.1 tk.2.2.1 L tk.2.2.2 hhd,
      if_neg (by decide : ¬ (false = true)), Nat.zero_add]
    exact ih (fun x hx => hall x (List.mem_cons_of_mem tk hx))

theorem runMonthly_le_one (e : Bool) (hr mi : ℕ)
    (ticks : List (CalDate × ℕ × ℕ × Bool)) (p : Option (ℤ × ℕ))
    (L : ℤ × ℕ) (hall : ∀ tk ∈ ticks, monthly_label tk.1 = L) :
    runMonthly e hr mi ticks p ≤ 1 := by
  induction ticks generalizing p with
  | nil => exact Nat.zero_le 1
  | cons tk rest ih =>
    have hhd := hall tk (List.mem_cons_self tk rest)
    have hrest : ∀ x ∈ rest, monthly_label x.1 = L :=
      fun x hx => hall x (List.mem_cons_of_mem tk hx)
    by_cases hs :
        (process_monthly_report_pdf e hr mi tk.1 tk.2.1 tk.2.2.1 p
          tk.2.2.2).1 = true
    · have hsnd :=
        (monthly_step_sent e hr mi tk.1 tk.2.1 tk.2.2.1 p tk.2.2.2 hs).2.2
      simp only [runMonthly, if_pos hs, hsnd, hhd]
      rw [runMonthly_locked e hr mi rest L hrest]
    · have hsnd :=
        monthly_step_nosend e hr mi tk.1 tk.2.1 tk.2.2.1 p tk.2.2.2 hs
      simp only [runMonthly, if_neg hs, hsnd]
      simpa using ih p hrest

/-- C9: the weekly job sends only when the ISO-week (Monday/Sunday) label
differs from the persisted one and persists the label exactly on a
successful send; the monthly job sends only on the last calendar day of
the month and only when the year-month label differs from the persisted
one, persisting on success; hence over any sequence of scheduler ticks
within one period label, at most one weekly and one monthly report is
sent. -/
theorem c9_report_dedup :
    (∀ (e : Bool) (wd : ℤ) (hr mi : ℕ) (t : TickTime)
        (p : Option (ℤ × ℤ)) (ok : Bool),
        ((process_weekly_report_text e wd hr mi t p ok).1 = true →
          p ≠ some (week_start_end_local t.today) ∧
          (process_weekly_report_text e wd hr mi t p ok).2 =
            some (week_start_end_local t.today)) ∧
        ((process_weekly_report_text e wd hr mi t p ok).1 ≠ true →
          (process_weekly_report_text e wd hr mi t p ok).2 = p)) ∧
    (∀ (e : Bool) (hr mi : ℕ) (d : CalDate) (nh nm : ℕ)
        (p : Option (ℤ × ℕ)) (ok : Bool),
        ((process_monthly_report_pdf e hr mi d nh nm p ok).1 = true →
          is_last_day_of_month d = true ∧
          p ≠ some (monthly_label d) ∧
          (process_monthly_report_pdf e hr mi d nh nm p ok).2 =
            some (monthly_label d)) ∧
        ((process_monthly_report_pdf e hr mi d nh nm p ok).1 ≠ true →
          (process_monthly_report_pdf e hr mi d nh nm p ok).2 = p)) ∧
    (∀ (e : Bool) (wd : ℤ) (hr mi : ℕ) (ticks : List (TickTime × Bool))
        (p : Option (ℤ × ℤ)) (L : ℤ × ℤ),
        (∀ tk ∈ ticks, week_start_end_local tk.1.today = L) →
        runWeekly e wd hr mi ticks p ≤ 1) ∧
    (∀ (e : Bool) (hr mi : ℕ) (ticks : List (CalDate × ℕ × ℕ × Bool))
        (p : Option (ℤ × ℕ)) (L : ℤ × ℕ),
        (∀ tk ∈ ticks, monthly_label tk.1 = L) →
        runMonthly e hr mi ticks p ≤ 1) :=
  ⟨fun e wd hr mi t p ok =>
      ⟨weekly_step_sent e wd hr mi t p ok,
        weekly_step_nosend e wd hr mi t p ok⟩,
    fun e hr mi d nh nm p ok =>
      ⟨monthly_step_sent e hr mi d nh nm p ok,
        monthly_step_nosend e hr mi d nh nm p ok⟩,
    runWeekly_le_one, runMonthly_le_one⟩

/-- Witness for C9: two successful-send ticks on the same Monday produce
exactly one weekly report; a 2024-01-31 20:00 tick sends the monthly
report and persists its label. -/
theorem c9_report_dedup_witness :
    runWeekly true 0 8 0 [(⟨0, 8, 0⟩, true), (⟨0, 9, 0⟩, true)] none ≤ 1 ∧
    (is_last_day_of_month ⟨2024, 1, 31⟩ = true ∧
      (none : Option (ℤ × ℕ)) ≠ some (monthly_label ⟨2024, 1, 31⟩) ∧
      (process_monthly_report_pdf true 20 0 ⟨2024, 1, 31⟩ 20 0 none
          true).2 = some (monthly_label ⟨2024, 1, 31⟩)) :=
  ⟨(c9_report_dedup.2.2.1 true 0 8 0
      [(⟨0, 8, 0⟩, true), (⟨0, 9, 0⟩, true)] none (0, 6) (by decide)),
    (c9_report_dedup.2.1 true 20 0 ⟨2024, 1, 31⟩ 20 0 none true).1
      (by decide)⟩

end WiApi
